import Mathlib

/-!
Verification of the YOLOProject vehicle-damage dashboard
(`src/streamlit_app.py`) against its natural-language specification.

The script is a Streamlit page around a pretrained YOLO detector.  We give a
shallow embedding of its pure logic: images are pixel grids, the detector is
an opaque model carrying a class-names table and a detection function, float
confidences are modelled as rationals, and the fallible parts (plotting, the
plotly figure construction) return `Option`/`Except`.  Every definition is
translated from the source file; definitions modelling repository code that is
absent from `src/`, or external library facts, say so in their doc comments.
-/

namespace YOLOProject

/-- An image, as the pixel array `np.array(image)`: a grid of RGB triples. -/
def Img : Type := List (List (Nat × Nat × Nat))

instance : DecidableEq Img := by unfold Img; infer_instance

instance : Inhabited Img := ⟨([] : List (List (Nat × Nat × Nat)))⟩

/-- One detector box of `results[0].boxes`: class index `boxes.cls[i]`
(already converted by `int(...)`), confidence `boxes.conf[i]` (a float,
modelled as a rational), and the `xyxy` coordinates. -/
structure Box where
  cls : Nat
  conf : ℚ
  xyxy : List ℚ
deriving DecidableEq, Repr

/-- The loaded YOLO model, consumed as a black box: its `names` table mapping
class indices to class-name strings, the detection call `model(img_array)`
returning the boxes of `results[0]`, and `results[0].plot()`, which either
renders an annotated image or raises (`none`). -/
structure YoloModel where
  names : List String
  detect : Img → List Box
  plot : Img → Option Img

/-- Dictionary built for each box by `process_image`:
`{'class': ..., 'confidence': ..., 'bbox': ...}`. -/
structure Detection where
  cls : String
  confidence : ℚ
  bbox : List ℚ
deriving DecidableEq, Repr

/-- Lookup `results[0].names[int(boxes.cls[i])]`.  The names table of a YOLO
model is a dense index-keyed dict, so list indexing models it; an
out-of-range index would raise `KeyError` in Python and yields `""` here
(no claim exercises that case). -/
def lookupName (names : List String) (i : Nat) : String :=
  names.getD i ""

/-- `cv2.cvtColor(img, cv2.COLOR_BGR2RGB)`: swap the first and third channel
of every pixel. -/
def cvtColorBGR2RGB (img : Img) : Img :=
  (img : List (List (Nat × Nat × Nat))).map
    (fun row => row.map (fun p => (p.2.2, p.2.1, p.1)))

/-- The `try` block of `process_image`: `results[0].plot()` followed by the
colour conversion when `cv2` imported; on failure (`plot` raising) the
`except` branch falls back to the unmodified input array. -/
def annotate (cv2Avail : Bool) (model : YoloModel) (imgArray : Img) : Img :=
  match model.plot imgArray with
  | some p => if cv2Avail then cvtColorBGR2RGB p else p
  | none => imgArray

/-- `process_image(image, model)`: run the model, build one detection dict per
box (guarded by `if len(results[0].boxes) > 0`), then produce the annotated
image, and return both. -/
def processImage (cv2Avail : Bool) (model : YoloModel) (image : Img) :
    List Detection × Img :=
  let imgArray := image
  let boxes := model.detect imgArray
  let detections :=
    if boxes.length > 0 then
      boxes.map (fun b =>
        { cls := lookupName model.names b.cls
          confidence := b.conf
          bbox := b.xyxy })
    else []
  (detections, annotate cv2Avail model imgArray)

/-! ### Python dict model

Both `damage_counts` in `create_detection_summary` and `st.session_state`
are Python dicts: insertion-ordered association lists where assignment
updates an existing key in place and otherwise appends. -/

/-- Python dict write `d[k] = ...`: if `k` is present, replace its value by
`upd` of the old value (for plain assignment `upd` is constant); otherwise
append `(k, ini)` at the end, preserving insertion order. -/
def dictUpdate {β : Type} (upd : β → β) (ini : β) (k : String)
    (d : List (String × β)) : List (String × β) :=
  if d.any (fun e => e.1 == k) then
    d.map (fun e => if e.1 == k then (e.1, upd e.2) else e)
  else d ++ [(k, ini)]

/-- Python dict read `d.get(k)`. -/
def dictFind {β : Type} (d : List (String × β)) (k : String) : Option β :=
  (d.find? (fun e => e.1 == k)).map (fun e => e.2)

/-- Python dict delete `del d[k]`. -/
def dictDelete {β : Type} (d : List (String × β)) (k : String) :
    List (String × β) :=
  d.filter (fun e => !(e.1 == k))

theorem updEntry_key {β : Type} (upd : β → β) (k : String) (e : String × β) :
    (if e.1 == k then (e.1, upd e.2) else e).1 = e.1 := by
  by_cases hk : e.1 = k <;> simp [hk]

theorem find?_map_update {β : Type} (upd : β → β) (k k' : String)
    (d : List (String × β)) :
    (d.map (fun e => if e.1 == k then (e.1, upd e.2) else e)).find?
        (fun e => e.1 == k') =
      (d.find? (fun e => e.1 == k')).map
        (fun e => if e.1 == k then (e.1, upd e.2) else e) := by
  rw [List.find?_map]
  have hcomp : ((fun (e : String × β) => e.1 == k') ∘
      fun e => if e.1 == k then (e.1, upd e.2) else e) =
      fun (e : String × β) => e.1 == k' := by
    funext e
    by_cases h : e.1 = k <;> simp [Function.comp, h]
  rw [hcomp]

theorem dictFind_update_self {β : Type} (upd : β → β) (ini : β) (k : String)
    (d : List (String × β)) :
    dictFind (dictUpdate upd ini k d) k =
      some ((dictFind d k).elim ini upd) := by
  unfold dictUpdate dictFind
  by_cases hany : d.any (fun e => e.1 == k) = true
  · rw [if_pos hany, find?_map_update]
    rcases hf : d.find? (fun e => e.1 == k) with _ | f
    · obtain ⟨e, hmem, he⟩ := List.any_eq_true.mp hany
      exact absurd (List.find?_eq_none.mp hf e hmem) (by simpa using he)
    · have hfk : (f.1 == k) = true := by simpa using List.find?_some hf
      rw [hf]
      simp [beq_iff_eq.mp hfk]
  · rw [if_neg hany]
    have hnone : d.find? (fun e => e.1 == k) = none := by
      rw [List.find?_eq_none]
      exact fun e hmem hc => hany (List.any_eq_true.mpr ⟨e, hmem, hc⟩)
    rw [List.find?_append, hnone]
    simp

theorem dictFind_update_ne {β : Type} (upd : β → β) (ini : β) (k k' : String)
    (hne : k' ≠ k) (d : List (String × β)) :
    dictFind (dictUpdate upd ini k d) k' = dictFind d k' := by
  unfold dictUpdate dictFind
  by_cases hany : d.any (fun e => e.1 == k) = true
  · rw [if_pos hany, find?_map_update]
    rcases hf : d.find? (fun e => e.1 == k') with _ | f
    · rw [hf]
      rfl
    · have hfk : (f.1 == k') = true := by simpa using List.find?_some hf
      have hfk2 : (f.1 == k) = false :=
        beq_eq_false_iff_ne.mpr (by rw [beq_iff_eq.mp hfk]; exact hne)
      rw [hf]
      simp [beq_eq_false_iff_ne.mp hfk2]
  · rw [if_neg hany, List.find?_append]
    rcases hf : d.find? (fun e => e.1 == k') with _ | f
    · rw [hf]
      have hkk' : ((k : String) == k') = false :=
        beq_eq_false_iff_ne.mpr (Ne.symm hne)
      simp [List.find?, hkk']
    · rw [hf]
      rfl

theorem dictFind_delete_self {β : Type} (d : List (String × β)) (k : String) :
    dictFind (dictDelete d k) k = none := by
  unfold dictDelete dictFind
  rw [Option.map_eq_none', List.find?_eq_none]
  intro e hmem
  have := List.of_mem_filter hmem
  simpa using this

theorem dictFind_delete_ne {β : Type} (d : List (String × β)) (k k' : String)
    (hne : k' ≠ k) : dictFind (dictDelete d k) k' = dictFind d k' := by
  unfold dictDelete dictFind
  congr 1
  induction d with
  | nil => rfl
  | cons h t ih =>
    by_cases hk : h.1 = k
    · have h1 : (h.1 == k) = true := beq_iff_eq.mpr hk
      have h2 : (h.1 == k') = false :=
        beq_eq_false_iff_ne.mpr (fun hh => hne (hh.symm.trans hk))
      simp [List.filter_cons, List.find?_cons, h1, h2, ih]
    · have h1 : (h.1 == k) = false := beq_eq_false_iff_ne.mpr hk
      by_cases h2 : h.1 = k'
      · simp [List.filter_cons, List.find?_cons, h1, beq_iff_eq.mpr h2]
      · have h2' : (h.1 == k') = false := beq_eq_false_iff_ne.mpr h2
        simp [List.filter_cons, List.find?_cons, h1, h2', ih]

/-! ### `create_detection_summary`: grouping detections by class -/

/-- One iteration of the grouping loop of `create_detection_summary`: insert
an empty list for a class not seen yet, then append the detection's
confidence to its class's list. -/
def addToGroups (groups : List (String × List ℚ)) (cls : String) (conf : ℚ) :
    List (String × List ℚ) :=
  dictUpdate (fun l => l ++ [conf]) [conf] cls groups

/-- The `damage_counts` dict of `create_detection_summary` after the loop. -/
def damageCounts (ds : List Detection) : List (String × List ℚ) :=
  ds.foldl (fun acc d => addToGroups acc d.cls d.confidence) []

/-- The confidences of the detections of class `c`, in order. -/
def confsOf (ds : List Detection) (c : String) : List ℚ :=
  (ds.filter (fun d => d.cls == c)).map Detection.confidence

/-- `np.mean` over a list of confidences. -/
def avgConf (l : List ℚ) : ℚ := l.sum / l.length

theorem dictFind_damageCounts_aux (ds : List Detection) :
    ∀ (acc : List (String × List ℚ)) (c : String),
      dictFind (ds.foldl (fun a d => addToGroups a d.cls d.confidence) acc) c =
        if (dictFind acc c).isSome || ds.any (fun d => d.cls == c) then
          some ((dictFind acc c).getD [] ++ confsOf ds c)
        else none := by
  induction ds with
  | nil =>
    intro acc c
    cases h : dictFind acc c <;> simp [confsOf, h]
  | cons d tl ih =>
    intro acc c
    rw [List.foldl_cons, ih (addToGroups acc d.cls d.confidence) c]
    by_cases hd : d.cls = c
    · subst hd
    -- the head detection belongs to class `c`
      have hself := dictFind_update_self (fun l => l ++ [d.confidence])
        [d.confidence] d.cls acc
      have hconfs : confsOf (d :: tl) d.cls = d.confidence :: confsOf tl d.cls := by
        simp [confsOf, List.filter_cons]
      rw [show addToGroups acc d.cls d.confidence =
            dictUpdate (fun l => l ++ [d.confidence]) [d.confidence] d.cls acc from rfl,
          hself, hconfs]
      cases ho : dictFind acc d.cls with
      | none => simp [ho, List.any_cons]
      | some l => simp [ho, List.any_cons]
    · have hne := dictFind_update_ne (fun l => l ++ [d.confidence])
        [d.confidence] d.cls c (Ne.symm hd) acc
      have hconfs : confsOf (d :: tl) c = confsOf tl c := by
        simp [confsOf, List.filter_cons, beq_eq_false_iff_ne.mpr hd]
      rw [show addToGroups acc d.cls d.confidence =
            dictUpdate (fun l => l ++ [d.confidence]) [d.confidence] d.cls acc from rfl,
          hne, hconfs]
      simp [List.any_cons, beq_eq_false_iff_ne.mpr hd]

/-- Characterisation of the grouping: looking a class up in `damage_counts`
yields exactly the confidences of that class's detections, in order, and
nothing for a class with no detection. -/
theorem dictFind_damageCounts (ds : List Detection) (c : String) :
    dictFind (damageCounts ds) c =
      if ds.any (fun d => d.cls == c) then some (confsOf ds c) else none := by
  have h := dictFind_damageCounts_aux ds [] c
  simpa [damageCounts, dictFind] using h

/-- The keys of a dict, in insertion order. -/
def keysOf {β : Type} (d : List (String × β)) : List String :=
  d.map Prod.fst

theorem keysOf_update {β : Type} (upd : β → β) (ini : β) (k : String)
    (d : List (String × β)) :
    keysOf (dictUpdate upd ini k d) =
      if d.any (fun e => e.1 == k) then keysOf d else keysOf d ++ [k] := by
  unfold dictUpdate keysOf
  by_cases hany : d.any (fun e => e.1 == k) = true
  · rw [if_pos hany, if_pos hany, List.map_map]
    congr 1
    funext e
    exact updEntry_key upd k e
  · rw [if_neg hany, if_neg hany]
    simp

theorem keysNodup_update {β : Type} (upd : β → β) (ini : β) (k : String)
    (d : List (String × β)) (h : (keysOf d).Nodup) :
    (keysOf (dictUpdate upd ini k d)).Nodup := by
  rw [keysOf_update]
  by_cases hany : d.any (fun e => e.1 == k) = true
  · simpa [hany] using h
  · have hk : k ∉ keysOf d := by
      intro hmem
      obtain ⟨e, hmem', he⟩ := List.mem_map.mp hmem
      exact hany (List.any_eq_true.mpr ⟨e, hmem', beq_iff_eq.mpr he⟩)
    simp [hany, List.nodup_append, h, hk]

theorem keysNodup_damageCounts (ds : List Detection) :
    (keysOf (damageCounts ds)).Nodup := by
  suffices h : ∀ acc : List (String × List ℚ), (keysOf acc).Nodup →
      (keysOf (ds.foldl (fun a d => addToGroups a d.cls d.confidence) acc)).Nodup by
    exact h [] (by simp [keysOf])
  induction ds with
  | nil => exact fun acc h => h
  | cons d tl ih =>
    intro acc hacc
    rw [List.foldl_cons]
    exact ih _ (keysNodup_update _ _ _ _ hacc)

/-- In a dict with distinct keys, every entry is found at its own key. -/
theorem dictFind_of_mem_nodup {β : Type} {d : List (String × β)}
    {g : String × β} (hmem : g ∈ d) (hnd : (keysOf d).Nodup) :
    dictFind d g.1 = some g.2 := by
  unfold dictFind
  induction d with
  | nil => cases hmem
  | cons h t ih =>
    rcases List.mem_cons.mp hmem with rfl | hmem'
    · simp [List.find?_cons]
    · have hnd' : h.1 ∉ List.map Prod.fst t ∧ (List.map Prod.fst t).Nodup := by
        simp only [keysOf, List.map_cons, List.nodup_cons] at hnd
        exact hnd
      have hne : h.1 ≠ g.1 := by
        intro he
        refine hnd'.1 ?_
        rw [he]
        exact List.mem_map.mpr ⟨g, hmem', rfl⟩
      have hb : (h.1 == g.1) = false := beq_eq_false_iff_ne.mpr hne
      simp only [List.find?_cons, hb]
      exact ih hmem' hnd'.2

/-- Total number of confidences stored across all groups. -/
def sumCounts (groups : List (String × List ℚ)) : Nat :=
  (groups.map (fun g => g.2.length)).sum

theorem map_update_of_not_any {β : Type} (upd : β → β) (k : String)
    (d : List (String × β)) (h : d.any (fun e => e.1 == k) = false) :
    d.map (fun e => if e.1 == k then (e.1, upd e.2) else e) = d := by
  induction d with
  | nil => rfl
  | cons hd t ih =>
    simp only [List.any_cons, Bool.or_eq_false_iff] at h
    have hne : ¬((hd.1 == k) = true) := by simp [h.1]
    rw [List.map_cons, if_neg hne, ih h.2]

theorem sumCounts_map_update (k : String) (v : ℚ) :
    ∀ d : List (String × List ℚ), (keysOf d).Nodup →
      d.any (fun e => e.1 == k) = true →
      sumCounts (d.map (fun e => if e.1 == k then (e.1, e.2 ++ [v]) else e)) =
        sumCounts d + 1 := by
  intro d
  induction d with
  | nil => intro _ hany; cases hany
  | cons h t ih =>
    intro hnd hany
    have hnd' : h.1 ∉ List.map Prod.fst t ∧ (List.map Prod.fst t).Nodup := by
      simp only [keysOf, List.map_cons, List.nodup_cons] at hnd
      exact hnd
    by_cases hk : h.1 = k
    · have hknot : t.any (fun e => e.1 == k) = false := by
        cases hb : t.any (fun e => e.1 == k)
        · rfl
        · obtain ⟨e, hmem, he⟩ := List.any_eq_true.mp hb
          exact absurd (List.mem_map.mpr ⟨e, hmem, beq_iff_eq.mp he⟩)
            (by simpa [hk] using hnd'.1)
      have htail := map_update_of_not_any (fun l => l ++ [v]) k t hknot
      simp only [List.map_cons, beq_iff_eq.mpr hk, if_pos, htail, sumCounts,
        List.map_cons, List.sum_cons, List.length_append, List.length_cons,
        List.length_nil]
      omega
    · have hb : (h.1 == k) = false := beq_eq_false_iff_ne.mpr hk
      have hany' : t.any (fun e => e.1 == k) = true := by
        rw [List.any_cons, hb] at hany
        simpa using hany
      have := ih hnd'.2 hany'
      simp only [List.map_cons, hb, Bool.false_eq_true, if_false, sumCounts,
        List.map_cons, List.sum_cons] at this ⊢
      omega

theorem sumCounts_addToGroups (gs : List (String × List ℚ)) (c : String)
    (v : ℚ) (hnd : (keysOf gs).Nodup) :
    sumCounts (addToGroups gs c v) = sumCounts gs + 1 := by
  unfold addToGroups dictUpdate
  by_cases hany : gs.any (fun e => e.1 == c) = true
  · rw [if_pos hany]
    exact sumCounts_map_update c v gs hnd hany
  · rw [if_neg hany]
    simp [sumCounts]

/-- The per-class counts of `damage_counts` sum to the number of detections. -/
theorem sumCounts_damageCounts (ds : List Detection) :
    sumCounts (damageCounts ds) = ds.length := by
  suffices h : ∀ acc : List (String × List ℚ), (keysOf acc).Nodup →
      sumCounts (ds.foldl (fun a d => addToGroups a d.cls d.confidence) acc) =
        sumCounts acc + ds.length by
    simpa [sumCounts] using h [] (by simp [keysOf])
  induction ds with
  | nil => intro acc _; simp
  | cons d tl ih =>
    intro acc hacc
    rw [List.foldl_cons]
    have hstep : (keysOf (addToGroups acc d.cls d.confidence)).Nodup :=
      keysNodup_update _ _ _ _ hacc
    rw [ih (addToGroups acc d.cls d.confidence) hstep,
      sumCounts_addToGroups acc d.cls d.confidence hacc]
    simp only [List.length_cons]
    omega

/-! ### `create_detection_summary`: rendering the summary string -/

/-- Python `damage_type.replace('_', ' ')`. -/
def replaceUnderscore (s : String) : String :=
  String.mk (s.data.map (fun c => if c = '_' then ' ' else c))

/-- Python `str.title()` on a char list: uppercase a letter that starts a
word, lowercase the rest; a new word starts after any non-alphabetic char. -/
def titleCaseAux : List Char → Bool → List Char
  | [], _ => []
  | c :: cs, atStart =>
    (if atStart then c.toUpper else c.toLower) :: titleCaseAux cs (!c.isAlpha)

/-- Python `str.title()`. -/
def titleCase (s : String) : String :=
  String.mk (titleCaseAux s.data true)

/-- Python `f"{x:.1%}"`: the value as a percentage with one decimal digit.
Rounding is exact on rationals (round-half differences with binary floats
are immaterial to every claim). -/
def fmtPercent (q : ℚ) : String :=
  toString (round (q * 1000) / 10) ++ "." ++
    toString ((round (q * 1000) % 10).natAbs) ++ "%"

/-- The first summary line, `f"**Total de danos detectados: {total}**\n"`. -/
def totalLine (total : Nat) : String :=
  "**Total de danos detectados: " ++ toString total ++ "**\n"

/-- One per-class line of the summary: class name prettified, count, and
`np.mean` of the confidences formatted as a percentage. -/
def summaryLine (g : String × List ℚ) : String :=
  "• **" ++ titleCase (replaceUnderscore g.1) ++ "**: " ++
    toString g.2.length ++ " ocorrência(s) - Confiança média: " ++
    fmtPercent (avgConf g.2)

/-- Python `"\n".join(lines)`. -/
def joinLines : List String → String
  | [] => ""
  | [s] => s
  | s :: rest => s ++ "\n" ++ joinLines rest

/-- `create_detection_summary(detections)`: the early-return message for an
empty list, otherwise the joined total line and per-class lines. -/
def createDetectionSummary (ds : List Detection) : String :=
  if ds = [] then "Nenhum dano detectado na imagem."
  else joinLines (totalLine ds.length :: (damageCounts ds).map summaryLine)

theorem data_append (s t : String) : (s ++ t).data = s.data ++ t.data := rfl

theorem joinLines_cons (s : String) (l : List String) :
    ∃ r : String, joinLines (s :: l) = s ++ r := by
  cases l with
  | nil => exact ⟨"", by simp [joinLines]⟩
  | cons t ts =>
    exact ⟨"\n" ++ joinLines (t :: ts), by simp [joinLines, String.append_assoc]⟩

theorem append_ne_of_head_ne (a b r : String) (c1 c2 : Char)
    (ha : a.data.head? = some c1) (hb : b.data.head? = some c2)
    (hne : c1 ≠ c2) : a ++ r ≠ b := by
  intro h
  have hd : a.data ++ r.data = b.data := by
    rw [← data_append, h]
  cases hda : a.data with
  | nil => rw [hda] at ha; exact Option.noConfusion ha
  | cons x xs =>
    rw [hda] at ha hd
    have hx : x = c1 := by simpa using ha
    rw [List.cons_append] at hd
    have hhead : b.data.head? = some x := by rw [← hd]; rfl
    have hx2 : x = c2 := by
      rw [hb] at hhead
      simpa using hhead.symm
    exact hne (hx.symm.trans hx2)

theorem processImage_detections (cv2Avail : Bool) (model : YoloModel) (image : Img) :
    (processImage cv2Avail model image).1 =
      (model.detect image).map (fun b =>
        { cls := lookupName model.names b.cls
          confidence := b.conf
          bbox := b.xyxy }) := by
  unfold processImage
  by_cases h : (model.detect image).length > 0
  · simp [h]
  · simp only [Nat.pos_iff_ne_zero, ne_eq, not_not] at h
    simp [List.length_eq_zero.mp h]


/-! ### Sample data for witnesses -/

/-- A concrete one-detection list. -/
def sampleDs : List Detection :=
  [{ cls := "dent", confidence := 9/10, bbox := [0, 0, 50, 50] }]

/-- A concrete two-class detection list. -/
def sampleDs2 : List Detection :=
  [{ cls := "dent", confidence := 9/10, bbox := [0, 0, 50, 50] },
   { cls := "scratch", confidence := 1/2, bbox := [10, 10, 20, 20] },
   { cls := "dent", confidence := 7/10, bbox := [5, 5, 15, 15] }]

/-! ### Claim theorems -/

/-- C2: `process_image` reshapes the detector's output into presentation
dicts: with `n` boxes in the result the detections list has exactly `n`
entries, and for every index `i` the `i`-th entry is the dict whose class is
the model's name for box `i`'s class index, whose confidence is box `i`'s
confidence, and whose bbox is box `i`'s `xyxy` box — in box order. -/
theorem processImage_reshapes (cv2Avail : Bool) (model : YoloModel) (image : Img) :
    (processImage cv2Avail model image).1.length = (model.detect image).length ∧
    ∀ i : Nat, (processImage cv2Avail model image).1[i]? =
      ((model.detect image)[i]?).map (fun b =>
        { cls := lookupName model.names b.cls
          confidence := b.conf
          bbox := b.xyxy }) := by
  rw [processImage_detections]
  exact ⟨List.length_map _ _, fun i => List.getElem?_map _ _ i⟩

/-- C3: for every non-empty detection list, `create_detection_summary`
renders one line per entry of `damage_counts`, and each entry's stored
count is the number of detections of its class while its stored average
confidence is the arithmetic mean of those detections' confidences; the
reported total is the length of the list, and the per-class counts sum to
that total. -/
theorem createDetectionSummary_counts (ds : List Detection) (hne : ds ≠ []) :
    createDetectionSummary ds =
      joinLines (totalLine ds.length :: (damageCounts ds).map summaryLine) ∧
    (∀ g ∈ damageCounts ds,
      g.2.length = (ds.filter (fun d => d.cls == g.1)).length ∧
      avgConf g.2 =
        avgConf ((ds.filter (fun d => d.cls == g.1)).map Detection.confidence)) ∧
    sumCounts (damageCounts ds) = ds.length := by
  refine ⟨by rw [createDetectionSummary, if_neg hne], ?_, sumCounts_damageCounts ds⟩
  intro g hg
  have hfind := dictFind_of_mem_nodup hg (keysNodup_damageCounts ds)
  rw [dictFind_damageCounts] at hfind
  by_cases hany : ds.any (fun d => d.cls == g.1) = true
  · rw [if_pos hany] at hfind
    have hg2 : g.2 = confsOf ds g.1 := (Option.some.inj hfind).symm
    constructor
    · rw [hg2, confsOf, List.length_map]
    · rw [hg2, confsOf]
  · rw [if_neg hany] at hfind
    exact Option.noConfusion hfind

/-- C3 witness: the theorem applied to a concrete three-detection list. -/
theorem createDetectionSummary_counts_witness :
    sampleDs2 ≠ [] ∧
    (createDetectionSummary sampleDs2 =
      joinLines (totalLine sampleDs2.length ::
        (damageCounts sampleDs2).map summaryLine) ∧
    (∀ g ∈ damageCounts sampleDs2,
      g.2.length = (sampleDs2.filter (fun d => d.cls == g.1)).length ∧
      avgConf g.2 =
        avgConf ((sampleDs2.filter (fun d => d.cls == g.1)).map
          Detection.confidence)) ∧
    sumCounts (damageCounts sampleDs2) = sampleDs2.length) :=
  ⟨by simp [sampleDs2], createDetectionSummary_counts sampleDs2 (by simp [sampleDs2])⟩

/-- C9: `create_detection_summary` returns the exact no-damage message iff
the detection list is empty; a non-empty list instead yields a summary that
begins with the total-damages line whose count is the list's length. -/
theorem createDetectionSummary_empty_message (ds : List Detection) :
    (createDetectionSummary ds = "Nenhum dano detectado na imagem." ↔ ds = []) ∧
    (ds ≠ [] → ∃ rest : String,
      createDetectionSummary ds = totalLine ds.length ++ rest) := by
  have hpre : ds ≠ [] → ∃ rest : String,
      createDetectionSummary ds = totalLine ds.length ++ rest := by
    intro hne
    rw [createDetectionSummary, if_neg hne]
    exact joinLines_cons _ _
  refine ⟨⟨?_, fun h => by rw [createDetectionSummary, if_pos h]⟩, hpre⟩
  intro heq
  by_contra hne
  obtain ⟨rest, hrest⟩ := hpre hne
  rw [hrest] at heq
  have heq' : "**Total de danos detectados: " ++
      (toString ds.length ++ ("**\n" ++ rest)) =
      "Nenhum dano detectado na imagem." := by
    rw [totalLine] at heq
    rw [← heq]
    rw [String.append_assoc, String.append_assoc]
  exact append_ne_of_head_ne "**Total de danos detectados: "
    "Nenhum dano detectado na imagem."
    (toString ds.length ++ ("**\n" ++ rest)) '*' 'N' rfl rfl (by decide) heq'

/-- C9 witness: the theorem's non-empty branch at a concrete list. -/
theorem createDetectionSummary_empty_message_witness :
    sampleDs ≠ [] ∧
    ∃ rest : String,
      createDetectionSummary sampleDs = totalLine sampleDs.length ++ rest := by
  have h := (createDetectionSummary_empty_message sampleDs).2
  exact ⟨by simp [sampleDs], h (by simp [sampleDs])⟩

/-! ### The recommendations block of `main` -/

/-- Which messages the Recomendações section emits: one flag per
`st.warning`/`st.info` rule, and the count shown by the `st.success`
high-confidence message (`none` when no detection clears the threshold). -/
structure Recs where
  glass : Bool
  tire : Bool
  lamp : Bool
  highConfCount : Option Nat
deriving DecidableEq, Repr

/-- The recommendation rules of `main`: three `any(...)` string-equality
checks on the class names, and the `d['confidence'] > 0.8` filter deciding
the success message. -/
def recommendations (ds : List Detection) : Recs :=
  { glass := ds.any (fun d => d.cls == "shattered_glass")
    tire := ds.any (fun d => d.cls == "flat_tire")
    lamp := ds.any (fun d => d.cls == "broken_lamp")
    highConfCount :=
      if 0 < (ds.filter (fun d => d.confidence > 0.8)).length then
        some (ds.filter (fun d => d.confidence > 0.8)).length
      else none }

/-- A single dent detected with high confidence. -/
def cexHigh : List Detection :=
  [{ cls := "dent", confidence := 9/10, bbox := [] }]

/-- The same class detected with low confidence. -/
def cexLow : List Detection :=
  [{ cls := "dent", confidence := 1/2, bbox := [] }]

/-! ### `create_confidence_chart` -/

/-- An exception raised inside `create_confidence_chart`. -/
inductive ChartErr : Type
  | attributeError (attr : String)
deriving DecidableEq, Repr

/-- The `px.bar` figure as configured by lines 84-101: the prettified class
per detection on x, the confidence on y, and the layout options applied by
`update_layout`. -/
structure BarChart where
  x : List String
  y : List ℚ
  title : String
  colorScale : String
  tickangle : Int
  height : Nat
  showLegend : Bool
deriving DecidableEq, Repr

/-- The figure `create_confidence_chart` assembles before its failing call. -/
def pxBarFigure (ds : List Detection) : BarChart :=
  { x := ds.map (fun d => titleCase (replaceUnderscore d.cls))
    y := ds.map Detection.confidence
    title := "Confiança das Detecções por Tipo de Dano"
    colorScale := "RdYlGn"
    tickangle := -45
    height := 400
    showLegend := false }

/-- `create_confidence_chart(detections)`: `None` for an empty list.  For a
non-empty list the code builds `pxBarFigure ds` and then calls
`fig.update_yaxis(tickformat='.0%')` — plotly figures define `update_yaxes`
but no `update_yaxis` (external fact about the plotly library), so the call
raises `AttributeError` and the figure is never returned. -/
def createConfidenceChart (ds : List Detection) :
    Except ChartErr (Option BarChart) :=
  if ds = [] then Except.ok none
  else Except.error (ChartErr.attributeError "update_yaxis")

/-! ### `load_model` and its `st.cache_resource` cache -/

/-- Modelled from the spec: the session cache behind `@st.cache_resource`
(the decorator's code lives in Streamlit, not in the repository), holding
the stored return value of `load_model` once a call has run. -/
def CacheState : Type := Option (Option YoloModel)

/-- One uncached run of `load_model`'s body: obtain the weights (download
`yolo11m.pt` if absent, construct `YOLO('yolo11m.pt')`), returning `none`
when the `except` branch catches; the `Nat` counts weight loads performed.
The outcome is a parameter because the download is an environment effect. -/
def loadModelBody (outcome : Option YoloModel) : Option YoloModel × Nat :=
  (outcome, 1)

/-- `load_model()` through the cache, per `st.cache_resource`'s documented
semantics: a hit returns the stored object and runs nothing; a miss runs
the body once and stores its result. -/
def cachedLoadModel (outcome : Option YoloModel) (st : CacheState) :
    Option YoloModel × CacheState × Nat :=
  match st with
  | some v => (v, some v, 0)
  | none =>
    ((loadModelBody outcome).1, some (loadModelBody outcome).1,
      (loadModelBody outcome).2)

/-! ### The example gallery's session state -/

/-- A value stored in `st.session_state`: an opened example image or the
example's label. -/
inductive SVal : Type
  | img (i : Img)
  | str (s : String)
deriving DecidableEq

/-- `st.session_state`, a Python dict. -/
def SessionState : Type := List (String × SVal)

/-- The example-button click handler (lines 166-174): when the example file
exists and opens, write the image under 'uploaded_example' and the label
under 'example_name'; otherwise (missing file, failed open) leave the state
alone. -/
def clickExample (st : SessionState) (opened : Option Img) (label : String) :
    SessionState :=
  match opened with
  | some i =>
    dictUpdate (fun _ => SVal.str label) (SVal.str label) "example_name"
      (dictUpdate (fun _ => SVal.img i) (SVal.img i) "uploaded_example" st)
  | none => st

/-- The "Testar Nova Imagem" handler (lines 242-247): delete each of the two
keys when present. -/
def resetClick (st : SessionState) : SessionState :=
  dictDelete (dictDelete st "uploaded_example") "example_name"

/-! ### The model's names table versus the damage classes -/

/-- The class-names table of the checkpoint `load_model` downloads from
`https://github.com/ultralytics/assets/releases/download/v8.3.0/yolo11m.pt`.
External fact about the published ultralytics weights: that checkpoint is
the generic COCO-pretrained YOLO11-medium, and its `names` dict is the 80
COCO object classes. -/
def cocoNames : List String :=
  ["person", "bicycle", "car", "motorcycle", "airplane", "bus", "train",
   "truck", "boat", "traffic light", "fire hydrant", "stop sign",
   "parking meter", "bench", "bird", "cat", "dog", "horse", "sheep", "cow",
   "elephant", "bear", "zebra", "giraffe", "backpack", "umbrella", "handbag",
   "tie", "suitcase", "frisbee", "skis", "snowboard", "sports ball", "kite",
   "baseball bat", "baseball glove", "skateboard", "surfboard",
   "tennis racket", "bottle", "wine glass", "cup", "fork", "knife", "spoon",
   "bowl", "banana", "apple", "sandwich", "orange", "broccoli", "carrot",
   "hot dog", "pizza", "donut", "cake", "chair", "couch", "potted plant",
   "bed", "dining table", "toilet", "tv", "laptop", "mouse", "remote",
   "keyboard", "cell phone", "microwave", "oven", "toaster", "sink",
   "refrigerator", "book", "clock", "vase", "scissors", "teddy bear",
   "hair drier", "toothbrush"]

/-- Modelled from the spec: the six vehicle-damage classes the dashboard is
documented to render — dents, scratches, cracks, broken glass, broken
lamps, flat tires — under the class names the script's own recommendation
rules test for. -/
def damageClasses : List String :=
  ["dent", "scratch", "crack", "shattered_glass", "broken_lamp", "flat_tire"]

/-- The downloaded model, with the COCO names table and a run on a vehicle
photo that detects one car (COCO class index 2). -/
def yolo11mOnCarPhoto : YoloModel :=
  { names := cocoNames
    detect := fun _ => [{ cls := 2, conf := 9/10, xyxy := [10, 10, 200, 150] }]
    plot := fun _ => none }

/-- A vehicle photo. -/
def carPhoto : Img := [[(128, 128, 128)]]

/-! ### The two script versions -/

/-- How a version of the script obtains the detector weights. -/
inductive WeightsAcquisition : Type
  | bundledFile (path : String)
  | downloadedAtRuntime (url : String) (path : String)
deriving DecidableEq, Repr

/-- One version of the Streamlit script: how it gets its weights, whether
it ships the example gallery, and its processing functions. -/
structure AppVersion where
  weights : WeightsAcquisition
  hasExampleGallery : Bool
  procImage : Bool → YoloModel → Img → List Detection × Img
  summaryOf : List Detection → String
  chartOf : List Detection → Except ChartErr (Option BarChart)
  recsOf : List Detection → Recs

/-- The version under `src/streamlit_app.py`: downloads `yolo11m.pt` at
runtime and ships the example gallery. -/
def appDownloaded : AppVersion :=
  { weights := WeightsAcquisition.downloadedAtRuntime
      "https://github.com/ultralytics/assets/releases/download/v8.3.0/yolo11m.pt"
      "yolo11m.pt"
    hasExampleGallery := true
    procImage := processImage
    summaryOf := createDetectionSummary
    chartOf := createConfidenceChart
    recsOf := recommendations }

/-- Modelled from the spec: the near-duplicate second version of the script
(not under `src/`), which differs only in loading its weights from a
bundled file and in lacking the example-gallery session-state polish; its
processing logic is the spec's "same script". -/
def appBundled : AppVersion :=
  { weights := WeightsAcquisition.bundledFile "trained.pt"
    hasExampleGallery := false
    procImage := processImage
    summaryOf := createDetectionSummary
    chartOf := createConfidenceChart
    recsOf := recommendations }

/-- C8: `process_image` always hands back an annotated image — the plotted
rendering, colour-converted exactly when cv2 imported, when plotting
succeeds, and the unmodified input pixel array when plotting raises — so
the caller always receives an image. -/
theorem processImage_annotated (cv2Avail : Bool) (model : YoloModel)
    (image : Img) :
    (processImage cv2Avail model image).2 = annotate cv2Avail model image ∧
    (model.plot image = none → annotate cv2Avail model image = image) ∧
    (∀ p : Img, model.plot image = some p →
      annotate cv2Avail model image =
        if cv2Avail then cvtColorBGR2RGB p else p) := by
  refine ⟨rfl, fun h => by simp [annotate, h], fun p h => by simp [annotate, h]⟩

/-- C4 counterexample: two detection lists with identical class strings on
which the recommendations block behaves differently, because the
high-confidence success rule is decided by a numeric threshold rather than
a string equality on class names. -/
theorem recommendations_not_class_determined :
    cexHigh.map Detection.cls = cexLow.map Detection.cls ∧
    recommendations cexHigh ≠ recommendations cexLow := by
  have h1 : (recommendations cexHigh).highConfCount = some 1 := by
    norm_num [recommendations, cexHigh, List.filter]
  have h2 : (recommendations cexLow).highConfCount = none := by
    norm_num [recommendations, cexLow, List.filter]
  refine ⟨rfl, fun h => ?_⟩
  rw [h, h2] at h1
  exact Option.noConfusion h1

/-- C4 (amended): each of the three warning/info recommendation rules is a
pure string-equality check — its message is emitted iff some detection's
class equals the corresponding hardcoded constant — while the remaining
rule of the block, the high-confidence success message, is decided by the
numeric `confidence > 0.8` threshold. -/
theorem recommendations_rules (ds : List Detection) :
    ((recommendations ds).glass = true ↔ ∃ d ∈ ds, d.cls = "shattered_glass") ∧
    ((recommendations ds).tire = true ↔ ∃ d ∈ ds, d.cls = "flat_tire") ∧
    ((recommendations ds).lamp = true ↔ ∃ d ∈ ds, d.cls = "broken_lamp") ∧
    ((recommendations ds).highConfCount.isSome = true ↔
      ∃ d ∈ ds, d.confidence > 0.8) ∧
    (∀ n : Nat, (recommendations ds).highConfCount = some n →
      n = (ds.filter (fun d => d.confidence > 0.8)).length) := by
  refine ⟨by simp [recommendations], by simp [recommendations],
    by simp [recommendations], ?_, ?_⟩
  · rw [show (recommendations ds).highConfCount =
      (if 0 < (ds.filter (fun d => d.confidence > 0.8)).length then
        some (ds.filter (fun d => d.confidence > 0.8)).length
      else none) from rfl]
    by_cases hf : 0 < (ds.filter (fun d => d.confidence > 0.8)).length
    · rw [if_pos hf]
      simp only [Option.isSome_some, true_iff]
      have hne : ds.filter (fun d => d.confidence > 0.8) ≠ [] := by
        intro h0
        rw [h0] at hf
        exact Nat.lt_irrefl 0 hf
      obtain ⟨d, hd⟩ := List.exists_mem_of_ne_nil _ hne
      exact ⟨d, List.mem_of_mem_filter hd, by simpa using List.of_mem_filter hd⟩
    · rw [if_neg hf]
      constructor
      · intro hs
        exact absurd hs (by simp)
      · rintro ⟨d, hd, hc⟩
        exact absurd (List.length_pos.mpr (List.ne_nil_of_mem
          (List.mem_filter.mpr ⟨hd, by simpa using hc⟩))) hf
  · intro n hn
    rw [show (recommendations ds).highConfCount =
      (if 0 < (ds.filter (fun d => d.confidence > 0.8)).length then
        some (ds.filter (fun d => d.confidence > 0.8)).length
      else none) from rfl] at hn
    by_cases hf : 0 < (ds.filter (fun d => d.confidence > 0.8)).length
    · rw [if_pos hf] at hn
      exact (Option.some.inj hn).symm
    · rw [if_neg hf] at hn
      exact Option.noConfusion hn

/-- C5: `load_model` is memoised by `st.cache_resource` — after any first
call in a session, a second call performs no weight load and returns the
same model object. -/
theorem loadModel_cached (outcome : Option YoloModel) (st : CacheState) :
    (cachedLoadModel outcome ((cachedLoadModel outcome st).2.1)).1 =
      (cachedLoadModel outcome st).1 ∧
    (cachedLoadModel outcome ((cachedLoadModel outcome st).2.1)).2.2 = 0 := by
  cases st with
  | none => exact ⟨rfl, rfl⟩
  | some v => exact ⟨rfl, rfl⟩

/-- C6: the example-gallery session-state handlers are frame-preserving —
a successful example click writes exactly 'uploaded_example' and
'example_name', a failed click writes nothing, the reset button removes
exactly those two keys, and every other session-state entry is untouched
by both. -/
theorem exampleGallery_frame (st : SessionState) (i : Img) (label : String) :
    (∀ k : String, k ≠ "uploaded_example" → k ≠ "example_name" →
      dictFind (clickExample st (some i) label) k = dictFind st k ∧
      dictFind (resetClick st) k = dictFind st k) ∧
    dictFind (clickExample st (some i) label) "uploaded_example" =
      some (SVal.img i) ∧
    dictFind (clickExample st (some i) label) "example_name" =
      some (SVal.str label) ∧
    dictFind (resetClick st) "uploaded_example" = none ∧
    dictFind (resetClick st) "example_name" = none ∧
    clickExample st none label = st := by
  refine ⟨?_, ?_, ?_, ?_, ?_, rfl⟩
  · intro k h1 h2
    refine ⟨?_, ?_⟩
    · simp only [clickExample]
      rw [dictFind_update_ne _ _ _ _ h2, dictFind_update_ne _ _ _ _ h1]
    · simp only [resetClick]
      rw [dictFind_delete_ne _ _ _ h2, dictFind_delete_ne _ _ _ h1]
  · simp only [clickExample]
    rw [dictFind_update_ne _ _ _ _ (by decide), dictFind_update_self]
    cases dictFind st "uploaded_example" <;> rfl
  · simp only [clickExample]
    rw [dictFind_update_self]
    cases dictFind (dictUpdate (fun _ => SVal.img i) (SVal.img i)
      "uploaded_example" st) "example_name" <;> rfl
  · simp only [resetClick]
    rw [dictFind_delete_ne _ _ _ (by decide), dictFind_delete_self]
  · simp only [resetClick]
    exact dictFind_delete_self _ _

/-- C10: `create_confidence_chart` does return `None` exactly on the empty
list, but a non-empty list reaches `fig.update_yaxis`, a method plotly
figures do not define, so the call raises `AttributeError` instead of
returning a figure — here at a concrete one-detection list. -/
theorem createConfidenceChart_raises :
    createConfidenceChart [] = Except.ok none ∧
    createConfidenceChart sampleDs =
      Except.error (ChartErr.attributeError "update_yaxis") := by
  constructor
  · rfl
  · rw [createConfidenceChart, if_neg (by simp [sampleDs])]

/-- C1: the checkpoint `load_model` downloads is the generic COCO-pretrained
yolo11m, whose names table shares no name with the six damage classes; on a
vehicle photo `process_image` therefore emits classes such as "car", never
a damage class. -/
theorem processImage_classes_not_damage :
    (∀ s ∈ cocoNames, s ∉ damageClasses) ∧
    (processImage true yolo11mOnCarPhoto carPhoto).1.map Detection.cls =
      ["car"] ∧
    "car" ∉ damageClasses := by
  refine ⟨by decide, rfl, by decide⟩

/-- C7: the two script versions share the whole processing pipeline and
differ exactly in how the weights are obtained and in the example-gallery
polish. -/
theorem versions_equivalent :
    appDownloaded.procImage = appBundled.procImage ∧
    appDownloaded.summaryOf = appBundled.summaryOf ∧
    appDownloaded.chartOf = appBundled.chartOf ∧
    appDownloaded.recsOf = appBundled.recsOf ∧
    appDownloaded.weights ≠ appBundled.weights ∧
    appDownloaded.hasExampleGallery ≠ appBundled.hasExampleGallery := by
  refine ⟨rfl, rfl, rfl, rfl, fun h => WeightsAcquisition.noConfusion h,
    fun h => Bool.noConfusion h⟩

end YOLOProject
